import Mathlib

/-!
# Verification of the vibe-logger session/credential core

Shallow embedding of the repository's session manager
(`src/session/manager.ts`), the authentication lifecycle
(`src/google/auth.ts`) and the service-level `endSession`
(`src/services/vibe-logger.ts`), together with proofs of the
specification's testable properties.

Modelling conventions:
* A JavaScript `Date` instant is represented by its ISO-8601 string
  (the value of `Date.prototype.toISOString()`), since the session
  manager only ever consumes instants through `toISOString()`.
* `Map<string, V>` is represented as an association list in insertion
  order; `Map.set` overwrites in place or appends, `Map.get` returns the
  first matching key, and iteration follows the list order, exactly as
  in JavaScript.
* The TypeScript `currentSession` field aliases an object stored inside
  `projectSessions`; the embedding represents that reference as the pair
  (project key, index into that project's history list).  Every
  assignment through the alias becomes a functional update at that
  position.
* Sources of nondeterminism or I/O (the current instant, the git user
  name, `Math.random`, the OAuth network exchange) are passed in as
  explicit arguments.
-/

namespace VibeLogger

/-- `s.split('T')[0]` on an ISO-8601 instant string: the UTC calendar
date part (the characters before the first `T`, or the whole string
when no `T` occurs).  Mirrors `getTodaysDate` / the day comparisons in
`src/session/manager.ts`. -/
def isoDatePart (s : String) : String :=
  String.mk (s.data.takeWhile fun c => c != 'T')

/-- ASCII lower-case letter test, the `[a-z]` regex class. -/
def isLowerAZ (c : Char) : Bool :=
  'a' ≤ c && c ≤ 'z'

/-- ASCII digit test, the `[0-9]` regex class. -/
def isDigit09 (c : Char) : Bool :=
  '0' ≤ c && c ≤ '9'

/-- The JavaScript regex `\s` class, restricted to the code points that
can survive the surrounding pipeline (space, tab, newline, carriage
return, vertical tab, form feed, no-break space). -/
def jsWhitespace (c : Char) : Bool :=
  c == ' ' || c == '\t' || c == '\n' || c == '\r' ||
  c.toNat == 11 || c.toNat == 12 || c.toNat == 160

/-- One pass of `String.replace(/p+/g, r)`: every maximal run of
characters satisfying `p` is replaced by the single character `r`.
The boolean argument records whether the previous character was part of
a run. -/
def collapseRunsGo (p : Char → Bool) (r : Char) : List Char → Bool → List Char
  | [], _ => []
  | c :: cs, inRun =>
    if p c then
      if inRun then collapseRunsGo p r cs true
      else r :: collapseRunsGo p r cs true
    else c :: collapseRunsGo p r cs false

/-- `String.replace(/p+/g, r)` over a character list. -/
def collapseRuns (p : Char → Bool) (r : Char) (cs : List Char) : List Char :=
  collapseRunsGo p r cs false

/-- Remove one leading occurrence of `c` (the `^-` half of
`replace(/^-|-$/g, '')`). -/
def dropOneLeading (c : Char) : List Char → List Char
  | [] => []
  | x :: xs => if x == c then xs else x :: xs

/-- Remove one trailing occurrence of `c` (the `-$` half of
`replace(/^-|-$/g, '')`). -/
def dropOneTrailing (c : Char) (cs : List Char) : List Char :=
  (dropOneLeading c cs.reverse).reverse

/-- `SessionManager.sanitizeProjectName`: lower-case, strip characters
outside `[a-z0-9\s-]`, collapse whitespace runs to single hyphens,
collapse hyphen runs, trim one leading/trailing hyphen, truncate to 50
characters.  `Char.toLower` matches `toLowerCase` on the ASCII range,
which is the only range that survives the following filter. -/
def sanitizeProjectName (name : String) : String :=
  let cs := name.data.map Char.toLower
  let cs := cs.filter fun c => isLowerAZ c || isDigit09 c || jsWhitespace c || c == '-'
  let cs := collapseRuns jsWhitespace '-' cs
  let cs := collapseRuns (fun c => c == '-') '-' cs
  let cs := dropOneTrailing '-' (dropOneLeading '-' cs)
  String.mk (cs.take 50)

/-- The character class `[a-z0-9-]` of the naming claim. -/
def isSafeChar (c : Char) : Bool :=
  isLowerAZ c || isDigit09 c || c == '-'

/-- `SessionManager.generateDocumentName`.  `now` is the current
instant (ISO string) and `username` the result of
`getCurrentUsername()` (git config / env lookup, passed in explicitly
because it is I/O). -/
def generateDocumentName (now username projectName : String) : String :=
  "session-" ++ sanitizeProjectName projectName ++ "-" ++ isoDatePart now ++ "-" ++ username

/-- `SessionManager.generateSessionId`.  `random` stands for the
`Math.random().toString(36).substring(2, 8)` suffix. -/
def generateSessionId (now random : String) : String :=
  "session-" ++ String.mk ((now.data.take 19).map fun c => if c == ':' then '-' else c)
    ++ "-" ++ random

/-- The `Session` interface of `src/session/manager.ts`.  `startTime`
holds the ISO string of the start instant. -/
structure Session where
  id : String
  projectName : String
  documentId : String
  documentName : String
  startTime : String
  objective : String
  template : String
  previousSessionId : Option String
  isActive : Bool
deriving Repr, DecidableEq

/-- `{ s with isActive := b }`: assignment to the `isActive` field of a
session object. -/
def setActive (b : Bool) (s : Session) : Session :=
  { s with isActive := b }

/-- JavaScript `Map.prototype.get`: first entry with the given key. -/
def mapGet {α : Type} : List (String × α) → String → Option α
  | [], _ => none
  | (k', v) :: rest, k => if k' == k then some v else mapGet rest k

/-- JavaScript `Map.prototype.set`: overwrite the first entry with the
given key in place, or append a new entry. -/
def mapSet {α : Type} : List (String × α) → String → α → List (String × α)
  | [], k, v => [(k, v)]
  | (k', v') :: rest, k, v =>
    if k' == k then (k, v) :: rest else (k', v') :: mapSet rest k v

/-- Functional update of the element at index `i` (no effect when the
index is out of range), the image of a field assignment through an
array reference. -/
def modifyIdx : List Session → Nat → (Session → Session) → List Session
  | [], _, _ => []
  | s :: rest, 0, f => f s :: rest
  | s :: rest, i + 1, f => s :: modifyIdx rest i f

/-- Update the session at index `i` of the history list of project `p`
(the image of mutating a shared `Session` object). -/
def updateSessionAt : List (String × List Session) → String → Nat → (Session → Session) →
    List (String × List Session)
  | [], _, _, _ => []
  | (k, l) :: rest, p, i, f =>
    if k == p then (k, modifyIdx l i f) :: rest
    else (k, l) :: updateSessionAt rest p i f

/-- `sessions[sessions.length - 1]`: the last element, `none` on the
empty list (TypeScript yields `undefined`). -/
def lastElem (l : List Session) : Option Session :=
  l[l.length - 1]?

/-- The `SessionState` of `src/session/manager.ts`.  `current` is the
`currentSession` reference, represented as (project key, index into
that project's history); the TypeScript invariant that `currentSession`
always aliases an element of `projectSessions` makes this faithful. -/
structure SessionState where
  current : Option (String × Nat)
  projectSessions : List (String × List Session)
  todaysDocuments : List (String × String)
deriving Repr, DecidableEq

/-- The fresh `SessionManager` state: empty maps, no current session. -/
def initialState : SessionState :=
  ⟨none, [], []⟩

/-- Dereference a (project, index) session pointer. -/
def getSessionAt (ps : List (String × List Session)) (p : String) (i : Nat) : Option Session :=
  match mapGet ps p with
  | none => none
  | some l => l[i]?

/-- `SessionManager.endCurrentSession`: clear the active flag of the
session the `currentSession` reference points at, then drop the
reference. -/
def endCurrentSession (st : SessionState) : SessionState :=
  match st.current with
  | none => st
  | some (p, i) =>
    { st with
      current := none
      projectSessions := updateSessionAt st.projectSessions p i (setActive false) }

/-- `SessionManager.startSession`.  `now`, `username` and `random` are
the instant, git user name and random suffix that the TypeScript
obtains from the environment.  Returns the updated state and the
session object that the method returns. -/
def startSession (st : SessionState) (now username random : String)
    (projectName objective template : String) : SessionState × Session :=
  let sessionId := generateSessionId now random
  let documentName := generateDocumentName now username projectName
  let documentId := (mapGet st.todaysDocuments projectName).getD ""
  let prevSessions := (mapGet st.projectSessions projectName).getD []
  let session : Session :=
    { id := sessionId
      projectName := projectName
      documentId := documentId
      documentName := documentName
      startTime := now
      objective := objective
      template := template
      previousSessionId := (lastElem prevSessions).map (·.id)
      isActive := true }
  let st1 := endCurrentSession st
  let newList := (mapGet st1.projectSessions projectName).getD [] ++ [session]
  ({ st1 with
      projectSessions := mapSet st1.projectSessions projectName newList
      current := some (projectName, newList.length - 1) },
   session)

/-- The `if (projectName)` branch of `SessionManager.continueSession`:
`some result` when that branch returns, `none` when control falls
through to the current-session check.  `if (projectName)` is JavaScript
truthiness, so the empty string falls through. -/
def continueProjectBranch (st : SessionState) (now : String) (projectName : Option String) :
    Option (SessionState × Option Session) :=
  match projectName with
  | none => none
  | some p =>
    if p == "" then none
    else
      match mapGet st.projectSessions p with
      | none => none
      | some sessions =>
        match lastElem sessions with
        | none => none
        | some lastSession =>
          if isoDatePart lastSession.startTime == isoDatePart now then
            let st1 := endCurrentSession st
            let idx := sessions.length - 1
            some
              ({ st1 with
                  projectSessions := updateSessionAt st1.projectSessions p idx (setActive true)
                  current := some (p, idx) },
               some (setActive true lastSession))
          else
            some (st, none)

/-- `SessionManager.continueSession`. -/
def continueSession (st : SessionState) (now : String) (projectName : Option String) :
    SessionState × Option Session :=
  match continueProjectBranch st now projectName with
  | some result => result
  | none =>
    match st.current with
    | none => (st, none)
    | some (cp, ci) =>
      match getSessionAt st.projectSessions cp ci with
      | none => (st, none)
      | some s =>
        if isoDatePart s.startTime == isoDatePart now then (st, some s)
        else (endCurrentSession st, none)

/-- `SessionManager.getCurrentSession`. -/
def getCurrentSession (st : SessionState) : Option Session :=
  match st.current with
  | none => none
  | some (p, i) => getSessionAt st.projectSessions p i

/-- `sessions.find(s => s.id === sessionId)` followed by
`session.documentId = documentId`: update the first session with the
given id in one history list. -/
def setDocIdInList : List Session → String → String → List Session
  | [], _, _ => []
  | s :: rest, sessionId, documentId =>
    if s.id == sessionId then { s with documentId := documentId } :: rest
    else s :: setDocIdInList rest sessionId documentId

/-- The entry loop of `SessionManager.setDocumentId`: walk the map
entries in insertion order, update the first history list containing
the session id, report which project key was hit (`break`). -/
def setDocumentIdAux : List (String × List Session) → String → String →
    List (String × List Session) × Option String
  | [], _, _ => ([], none)
  | (k, l) :: rest, sessionId, documentId =>
    if l.any (fun s => s.id == sessionId) then
      ((k, setDocIdInList l sessionId documentId) :: rest, some k)
    else
      let r := setDocumentIdAux rest sessionId documentId
      ((k, l) :: r.1, r.2)

/-- `SessionManager.setDocumentId` (the spec's `attachDocument`). -/
def setDocumentId (st : SessionState) (sessionId documentId : String) : SessionState :=
  let r := setDocumentIdAux st.projectSessions sessionId documentId
  match r.2 with
  | none => { st with projectSessions := r.1 }
  | some p =>
    { st with
      projectSessions := r.1
      todaysDocuments := mapSet st.todaysDocuments p documentId }

/-- `SessionManager.getTodaysDocumentId`:
`todaysDocuments.get(projectName) || null`, so an empty stored string
is also reported as `none` (JavaScript truthiness). -/
def getTodaysDocumentId (st : SessionState) (projectName : String) : Option String :=
  match mapGet st.todaysDocuments projectName with
  | none => none
  | some d => if d == "" then none else some d

/-- `SessionManager.needsNewDocument`. -/
def needsNewDocument (st : SessionState) (projectName : String) : Bool :=
  match mapGet st.todaysDocuments projectName with
  | none => true
  | some d => d == ""

/-- `VibeLoggerService.endSession`, session-state part: fail when no
session is active, otherwise deactivate the current session and return
it.  The document append (`addSessionEnd`) and summary generation are
external-collaborator I/O and carry no session state; the returned
session object is read back through the live reference after
`endCurrentSession` ran, hence the cleared flag. -/
def endSession (st : SessionState) : SessionState × Except String Session :=
  match getCurrentSession st with
  | none => (st, .error "No active session to end")
  | some s => (endCurrentSession st, .ok (setActive false s))

/-- Number of sessions of one history list whose `isActive` flag is
set. -/
def countActiveList (l : List Session) : Nat :=
  l.countP fun s => s.isActive

/-- Number of active sessions across all project histories. -/
def countActive (ps : List (String × List Session)) : Nat :=
  (ps.map fun e => countActiveList e.2).sum

/-- Project keys and session ids of every history entry: the part of
the registry that `end` must not disturb. -/
def sessionIds (ps : List (String × List Session)) : List (String × List String) :=
  ps.map fun e => (e.1, e.2.map (·.id))

/-- Does some project history contain a session with this id? -/
def sessionExists (st : SessionState) (sessionId : String) : Bool :=
  st.projectSessions.any fun e => e.2.any fun s => s.id == sessionId

/-- Consistency of the `currentSession` reference with the active
flags: with no reference no session is active; with a reference there
is exactly one active session and the reference points at an active
session. -/
def currentOk (st : SessionState) : Prop :=
  match st.current with
  | none => countActive st.projectSessions = 0
  | some (p, i) =>
    countActive st.projectSessions = 1 ∧
    ∃ s, getSessionAt st.projectSessions p i = some s ∧ s.isActive = true

/-- The registry invariant: project keys are distinct (a JavaScript
`Map` cannot hold duplicate keys) and the current-session reference is
consistent with the active flags. -/
def Inv (st : SessionState) : Prop :=
  (st.projectSessions.map fun e => e.1).Nodup ∧ currentOk st

/-- The token data handled by `src/google/auth.ts`.  Modelled from the
spec: the `TokenData` shape of `src/schemas/google.ts` is not among the
provided sources; spec §6 gives the token file as `{access_token,
refresh_token?, scope?, token_type?, expiry_date?(epoch millis),
id_token?}`.  `expiry_date` is in epoch milliseconds, so a `Nat`. -/
structure TokenData where
  access_token : Option String
  refresh_token : Option String
  scope : Option String
  token_type : Option String
  expiry_date : Option Nat
  id_token : Option String
deriving Repr, DecidableEq

/-- The empty credential object installed by `setCredentials({})`. -/
def emptyTokens : TokenData :=
  ⟨none, none, none, none, none, none⟩

/-- Modelled from the spec: `TokenDataSchema.parse` of
`src/schemas/google.ts` (not among the provided sources).  Spec §6
marks every field of the token file optional except `access_token`, so
validation succeeds exactly when an access token is present. -/
def tokenDataValid (t : TokenData) : Bool :=
  t.access_token.isSome

/-- The mutable authentication state of a `GoogleAuth` object together
with the persisted token file: `initialized` is `oauth2Client !== null`,
`clientCredentials` is `oauth2Client.credentials`, and `tokenFile` is
the durable store behind `saveTokens`. -/
structure AuthState where
  initialized : Bool
  clientCredentials : TokenData
  tokenFile : Option TokenData
deriving Repr, DecidableEq

/-- `GoogleAuth.isTokenExpired`: `!tokens.expiry_date` is JavaScript
truthiness, so a zero expiry is treated like a missing one; `now` is
`Date.now()` in epoch milliseconds. -/
def isTokenExpired (now : Nat) (tokens : TokenData) : Bool :=
  match tokens.expiry_date with
  | none => true
  | some e => if e == 0 then true else decide (now ≥ e)

/-- Outcome of the remote `oauth2Client.refreshAccessToken()` round
trip, passed in explicitly because it is network I/O.  `failure` covers
both a missing refresh token and a remote rejection (the client library
rejects in either case). -/
inductive RefreshOutcome
  | success (creds : TokenData)
  | failure
deriving Repr, DecidableEq

/-- `GoogleAuth.saveTokens`: re-validate, then persist.  The
`fs.writeFile` itself is assumed to succeed (filesystem failures are
outside the claims' scope). -/
def saveTokens (st : AuthState) (tokens : TokenData) : AuthState × Except String Unit :=
  if tokenDataValid tokens then
    ({ st with tokenFile := some tokens }, .ok ())
  else
    (st, .error "Invalid token data received from Google API")

/-- `GoogleAuth.refreshTokens`: remote exchange, validation,
`setCredentials`, then `saveTokens` — in that order, so nothing is
mutated before the received tokens validate. -/
def refreshTokens (st : AuthState) (remote : RefreshOutcome) : AuthState × Except String Unit :=
  if !st.initialized then
    (st, .error "OAuth2 client not initialized")
  else
    match remote with
    | .failure => (st, .error "Token refresh failed. Re-authentication required.")
    | .success creds =>
      if tokenDataValid creds then
        let st1 := { st with clientCredentials := creds }
        saveTokens st1 creds
      else
        (st, .error "Invalid token data received during refresh")

/-- `GoogleAuth.isAuthenticated`:
`!!(credentials.access_token && !this.isTokenExpired(credentials))`,
with JavaScript truthiness on the access token (the empty string is
falsy). -/
def isAuthenticated (st : AuthState) (now : Nat) : Bool :=
  if !st.initialized then false
  else
    match st.clientCredentials.access_token with
    | none => false
    | some a => if a == "" then false else !isTokenExpired now st.clientCredentials

/-- `GoogleAuth.getAuthenticatedClient`.  Returns the updated state,
the result (`ok` stands for the returned client, which is the state
itself), and whether a refresh network call was attempted. -/
def getAuthenticatedClient (st : AuthState) (now : Nat) (remote : RefreshOutcome) :
    AuthState × Except String Unit × Bool :=
  if !st.initialized then
    (st, .error "OAuth2 client not initialized", false)
  else
    match st.clientCredentials.access_token with
    | none => (st, .error "No access token available. Authentication required.", false)
    | some a =>
      if a == "" then (st, .error "No access token available. Authentication required.", false)
      else if isTokenExpired now st.clientCredentials then
        let r := refreshTokens st remote
        (r.1, r.2, true)
      else
        (st, .ok (), false)

/-- States reachable from the fresh manager by any sequence of the
registry operations. -/
inductive Reachable : SessionState → Prop
  | init : Reachable initialState
  | start (st : SessionState) (now username random projectName objective template : String) :
      Reachable st → Reachable (startSession st now username random projectName objective template).1
  | cont (st : SessionState) (now : String) (projectName : Option String) :
      Reachable st → Reachable (continueSession st now projectName).1
  | endCur (st : SessionState) :
      Reachable st → Reachable (endCurrentSession st)
  | endSvc (st : SessionState) :
      Reachable st → Reachable (endSession st).1
  | setDoc (st : SessionState) (sessionId documentId : String) :
      Reachable st → Reachable (setDocumentId st sessionId documentId)

end VibeLogger

namespace VibeLogger

/-! ## Lemmas about the sanitization pipeline -/

theorem mem_collapseRunsGo {p : Char → Bool} {r : Char} {cs : List Char} {b : Bool} {x : Char}
    (hx : x ∈ collapseRunsGo p r cs b) : x = r ∨ (x ∈ cs ∧ p x = false) := by
  induction cs generalizing b with
  | nil => simp [collapseRunsGo] at hx
  | cons c cs ih =>
    by_cases hc : p c
    · cases b with
      | true =>
        simp only [collapseRunsGo, hc, if_true] at hx
        rcases ih hx with h | ⟨hmem, hpx⟩
        · exact Or.inl h
        · exact Or.inr ⟨List.mem_cons_of_mem _ hmem, hpx⟩
      | false =>
        simp only [collapseRunsGo, hc, if_true] at hx
        rcases List.mem_cons.mp hx with h | h
        · exact Or.inl h
        · rcases ih h with h | ⟨hmem, hpx⟩
          · exact Or.inl h
          · exact Or.inr ⟨List.mem_cons_of_mem _ hmem, hpx⟩
    · simp only [collapseRunsGo, hc, if_false] at hx
      rcases List.mem_cons.mp hx with h | h
      · subst h
        exact Or.inr ⟨List.mem_cons_self _ _, Bool.of_not_eq_true hc⟩
      · rcases ih h with h | ⟨hmem, hpx⟩
        · exact Or.inl h
        · exact Or.inr ⟨List.mem_cons_of_mem _ hmem, hpx⟩

theorem mem_collapseRuns {p : Char → Bool} {r : Char} {cs : List Char} {x : Char}
    (hx : x ∈ collapseRuns p r cs) : x = r ∨ (x ∈ cs ∧ p x = false) :=
  mem_collapseRunsGo hx

theorem mem_dropOneLeading {c x : Char} {cs : List Char}
    (hx : x ∈ dropOneLeading c cs) : x ∈ cs := by
  cases cs with
  | nil => simp [dropOneLeading] at hx
  | cons y ys =>
    by_cases hy : y == c
    · simp only [dropOneLeading, hy, if_true] at hx
      exact List.mem_cons_of_mem _ hx
    · simpa only [dropOneLeading, hy, if_false] using hx

theorem mem_dropOneTrailing {c x : Char} {cs : List Char}
    (hx : x ∈ dropOneTrailing c cs) : x ∈ cs := by
  unfold dropOneTrailing at hx
  exact List.mem_reverse.mp (mem_dropOneLeading (List.mem_reverse.mp hx))

/-- Every character of a sanitized project name lies in `[a-z0-9-]`. -/
theorem sanitizeProjectName_chars (name : String) :
    ∀ c ∈ (sanitizeProjectName name).data, isSafeChar c = true := by
  intro c hc
  unfold sanitizeProjectName at hc
  simp only [String.mk] at hc
  have hc' : c ∈ dropOneTrailing '-'
      (dropOneLeading '-'
        (collapseRuns (fun c => c == '-') '-'
          (collapseRuns jsWhitespace '-'
            ((name.data.map Char.toLower).filter
              fun c => isLowerAZ c || isDigit09 c || jsWhitespace c || c == '-')))) :=
    List.take_subset _ _ hc
  have hc2 := mem_dropOneLeading (mem_dropOneTrailing hc')
  rcases mem_collapseRuns hc2 with h | ⟨hc3, hnh⟩
  · subst h; rfl
  · rcases mem_collapseRuns hc3 with h | ⟨hc4, hws⟩
    · subst h; rfl
    · have hkeep := (List.mem_filter.mp hc4).2
      simp only [hws, Bool.or_false, Bool.false_or] at hkeep
      rcases Bool.or_eq_true_iff.mp hkeep with h | h
      · rcases Bool.or_eq_true_iff.mp h with h | h
        · simp [isSafeChar, h]
        · simp [isSafeChar, h]
      · simp [isSafeChar, h]

/-- A sanitized project name has at most 50 characters. -/
theorem sanitizeProjectName_length (name : String) :
    (sanitizeProjectName name).length ≤ 50 := by
  unfold sanitizeProjectName
  have : (String.mk ((dropOneTrailing '-'
      (dropOneLeading '-'
        (collapseRuns (fun c => c == '-') '-'
          (collapseRuns jsWhitespace '-'
            ((name.data.map Char.toLower).filter
              fun c => isLowerAZ c || isDigit09 c || jsWhitespace c || c == '-'))))).take 50)).length
      = ((dropOneTrailing '-'
      (dropOneLeading '-'
        (collapseRuns (fun c => c == '-') '-'
          (collapseRuns jsWhitespace '-'
            ((name.data.map Char.toLower).filter
              fun c => isLowerAZ c || isDigit09 c || jsWhitespace c || c == '-'))))).take 50).length := rfl
  rw [this, List.length_take]
  exact min_le_left _ _

/-! ## Lemmas about the map and pointer primitives -/

theorem mapGet_mapSet_self {α : Type} (m : List (String × α)) (k : String) (v : α) :
    mapGet (mapSet m k v) k = some v := by
  induction m with
  | nil => simp [mapGet, mapSet]
  | cons e rest ih =>
    obtain ⟨k', v'⟩ := e
    by_cases hk : k' == k
    · simp [mapGet, mapSet, hk]
    · simp [mapGet, mapSet, hk, ih]

theorem mem_of_mapGet {α : Type} {m : List (String × α)} {k : String} {v : α}
    (h : mapGet m k = some v) : (k, v) ∈ m := by
  induction m with
  | nil => simp [mapGet] at h
  | cons e rest ih =>
    obtain ⟨k', v'⟩ := e
    by_cases hk : k' == k
    · simp only [mapGet, hk, if_true, Option.some.injEq] at h
      have : k' = k := by simpa using hk
      subst this
      subst h
      exact List.mem_cons_self _ _
    · simp only [mapGet, hk, if_false] at h
      exact List.mem_cons_of_mem _ (ih h)

theorem mem_keys_mapSet {α : Type} {m : List (String × α)} {k x : String} {v : α}
    (h : x ∈ (mapSet m k v).map fun e => e.1) : x ∈ (m.map fun e => e.1) ∨ x = k := by
  induction m with
  | nil =>
    simp only [mapSet, List.map_cons, List.map_nil, List.mem_singleton] at h
    exact Or.inr h
  | cons e rest ih =>
    obtain ⟨k', v'⟩ := e
    cases hk : k' == k with
    | true =>
      simp only [mapSet, hk, if_true, List.map_cons, List.mem_cons] at h
      rcases h with h | h
      · exact Or.inr h
      · exact Or.inl (List.mem_cons_of_mem _ h)
    | false =>
      simp only [mapSet, hk, Bool.false_eq_true, if_false, List.map_cons, List.mem_cons] at h
      rcases h with h | h
      · exact Or.inl (by simp [h])
      · rcases ih h with h | h
        · exact Or.inl (List.mem_cons_of_mem _ h)
        · exact Or.inr h

theorem nodup_keys_mapSet {α : Type} {m : List (String × α)} (k : String) (v : α)
    (h : (m.map fun e => e.1).Nodup) : ((mapSet m k v).map fun e => e.1).Nodup := by
  induction m with
  | nil => simp [mapSet]
  | cons e rest ih =>
    obtain ⟨k', v'⟩ := e
    simp only [List.map_cons, List.nodup_cons] at h
    cases hk : k' == k with
    | true =>
      have hkk : k' = k := by simpa using hk
      subst hkk
      simp only [mapSet, hk, if_true, List.map_cons, List.nodup_cons]
      exact h
    | false =>
      simp only [mapSet, hk, Bool.false_eq_true, if_false, List.map_cons, List.nodup_cons]
      refine ⟨fun hmem => ?_, ih h.2⟩
      rcases mem_keys_mapSet hmem with hmem | hmem
      · exact h.1 hmem
      · subst hmem
        simp at hk

theorem keys_updateSessionAt (ps : List (String × List Session)) (p : String) (i : Nat)
    (f : Session → Session) :
    ((updateSessionAt ps p i f).map fun e => e.1) = ps.map fun e => e.1 := by
  induction ps with
  | nil => rfl
  | cons e rest ih =>
    obtain ⟨k, l⟩ := e
    by_cases hk : k == p
    · simp [updateSessionAt, hk]
    · simp [updateSessionAt, hk, ih]

theorem mapGet_updateSessionAt_self (ps : List (String × List Session)) (p : String) (i : Nat)
    (f : Session → Session) :
    mapGet (updateSessionAt ps p i f) p = (mapGet ps p).map fun l => modifyIdx l i f := by
  induction ps with
  | nil => simp [mapGet, updateSessionAt]
  | cons e rest ih =>
    obtain ⟨k, l⟩ := e
    by_cases hk : k == p
    · simp [mapGet, updateSessionAt, hk]
    · simp [mapGet, updateSessionAt, hk, ih]

theorem mapGet_updateSessionAt_ne (ps : List (String × List Session)) {p q : String} (i : Nat)
    (f : Session → Session) (hq : q ≠ p) :
    mapGet (updateSessionAt ps p i f) q = mapGet ps q := by
  induction ps with
  | nil => rfl
  | cons e rest ih =>
    obtain ⟨k, l⟩ := e
    by_cases hk : k == p
    · have hkp : k = p := by simpa using hk
      subst hkp
      have : (k == q) = false := by
        simp only [beq_eq_false_iff_ne, ne_eq]
        exact fun h => hq h.symm
      simp [mapGet, updateSessionAt, hk, this]
    · by_cases hq' : k == q
      · simp [mapGet, updateSessionAt, hk, hq']
      · simp [mapGet, updateSessionAt, hk, hq', ih]

theorem modifyIdx_length (l : List Session) (i : Nat) (f : Session → Session) :
    (modifyIdx l i f).length = l.length := by
  induction l generalizing i with
  | nil => rfl
  | cons s rest ih =>
    cases i with
    | zero => simp [modifyIdx]
    | succ j => simp [modifyIdx, ih]

theorem modifyIdx_getElem_self (l : List Session) (i : Nat) (f : Session → Session) :
    (modifyIdx l i f)[i]? = (l[i]?).map f := by
  induction l generalizing i with
  | nil => simp [modifyIdx]
  | cons s rest ih =>
    cases i with
    | zero => simp [modifyIdx]
    | succ j => simpa [modifyIdx] using ih j

theorem modifyIdx_getElem_ne (l : List Session) {i j : Nat} (f : Session → Session)
    (hij : j ≠ i) : (modifyIdx l i f)[j]? = l[j]? := by
  induction l generalizing i j with
  | nil => simp [modifyIdx]
  | cons s rest ih =>
    cases i with
    | zero =>
      cases j with
      | zero => exact absurd rfl hij
      | succ j' => simp [modifyIdx]
    | succ i' =>
      cases j with
      | zero => simp [modifyIdx]
      | succ j' =>
        have : j' ≠ i' := fun h => hij (by simp [h])
        simpa [modifyIdx] using ih this

theorem getSessionAt_updateSessionAt_self (ps : List (String × List Session)) (p : String)
    (i : Nat) (f : Session → Session) :
    getSessionAt (updateSessionAt ps p i f) p i = (getSessionAt ps p i).map f := by
  unfold getSessionAt
  rw [mapGet_updateSessionAt_self]
  cases mapGet ps p with
  | none => rfl
  | some l => simp [modifyIdx_getElem_self]

theorem getSessionAt_updateSessionAt_ne (ps : List (String × List Session)) {p q : String}
    {i j : Nat} (f : Session → Session) (h : q ≠ p ∨ j ≠ i) :
    getSessionAt (updateSessionAt ps p i f) q j = getSessionAt ps q j := by
  unfold getSessionAt
  rcases h with h | h
  · rw [mapGet_updateSessionAt_ne ps i f h]
  · by_cases hq : q = p
    · subst hq
      rw [mapGet_updateSessionAt_self]
      cases mapGet ps q with
      | none => rfl
      | some l => simp [modifyIdx_getElem_ne l f h]
    · rw [mapGet_updateSessionAt_ne ps i f hq]

theorem countActiveList_modifyIdx {l : List Session} {i : Nat} {s : Session}
    (f : Session → Session) (h : l[i]? = some s) :
    countActiveList (modifyIdx l i f) + (if s.isActive then 1 else 0)
      = countActiveList l + (if (f s).isActive then 1 else 0) := by
  induction l generalizing i with
  | nil => simp at h
  | cons a rest ih =>
    cases i with
    | zero =>
      simp only [List.getElem?_cons_zero, Option.some.injEq] at h
      subst h
      simp only [modifyIdx, countActiveList, List.countP_cons]
      omega
    | succ j =>
      simp only [List.getElem?_cons_succ] at h
      have := ih h
      simp only [modifyIdx, countActiveList, List.countP_cons] at this ⊢
      omega

theorem countActive_updateSessionAt {ps : List (String × List Session)} {p : String} {i : Nat}
    {s : Session} (f : Session → Session) (h : getSessionAt ps p i = some s) :
    countActive (updateSessionAt ps p i f) + (if s.isActive then 1 else 0)
      = countActive ps + (if (f s).isActive then 1 else 0) := by
  induction ps with
  | nil => simp [getSessionAt, mapGet] at h
  | cons e rest ih =>
    obtain ⟨k, l⟩ := e
    cases hk : k == p with
    | true =>
      simp only [getSessionAt, mapGet, hk, if_true] at h
      simp only [updateSessionAt, hk, if_true, countActive, List.map_cons, List.sum_cons]
      have := countActiveList_modifyIdx f h
      simp only [countActive] at *
      omega
    | false =>
      simp only [getSessionAt, mapGet, hk, Bool.false_eq_true, if_false] at h
      have := ih (by simpa [getSessionAt] using h)
      simp only [updateSessionAt, hk, Bool.false_eq_true, if_false, countActive, List.map_cons,
        List.sum_cons] at *
      omega

theorem countActive_mapSet_append (ps : List (String × List Session)) (k : String) (s : Session) :
    countActive (mapSet ps k ((mapGet ps k).getD [] ++ [s]))
      = countActive ps + (if s.isActive then 1 else 0) := by
  induction ps with
  | nil =>
    simp [mapGet, mapSet, countActive, countActiveList, List.countP_cons]
  | cons e rest ih =>
    obtain ⟨k', l⟩ := e
    cases hk : k' == k with
    | true =>
      simp only [mapGet, mapSet, hk, if_true, Option.getD_some, countActive, List.map_cons,
        List.sum_cons]
      simp only [countActiveList, List.countP_append, List.countP_cons, List.countP_nil]
      omega
    | false =>
      simp only [mapGet, mapSet, hk, Bool.false_eq_true, if_false, countActive, List.map_cons,
        List.sum_cons]
      simp only [countActive] at ih
      omega

theorem inactive_of_countActive_zero {ps : List (String × List Session)} {p : String} {i : Nat}
    {s : Session} (hz : countActive ps = 0) (h : getSessionAt ps p i = some s) :
    s.isActive = false := by
  unfold getSessionAt at h
  rcases hm : mapGet ps p with _ | l
  · rw [hm] at h; exact absurd h (by simp)
  · rw [hm] at h
    have hmem : (p, l) ∈ ps := mem_of_mapGet hm
    have hcount : countActiveList l = 0 := by
      have := List.sum_eq_zero_iff.mp hz (countActiveList l)
      exact this (List.mem_map.mpr ⟨(p, l), hmem, rfl⟩)
    have hs : s ∈ l := List.getElem?_mem h
    have := List.countP_eq_zero.mp hcount s hs
    simpa using this

/-! ## Properties of the registry operations -/

theorem setActive_isActive (b : Bool) (s : Session) : (setActive b s).isActive = b := rfl

theorem setActive_setActive (b c : Bool) (s : Session) :
    setActive b (setActive c s) = setActive b s := rfl

theorem setActive_id (b : Bool) (s : Session) : (setActive b s).id = s.id := rfl

theorem endCurrentSession_current (st : SessionState) :
    (endCurrentSession st).current = none := by
  cases hc : st.current with
  | none => simp [endCurrentSession, hc]
  | some pi => obtain ⟨p, i⟩ := pi; simp [endCurrentSession, hc]

theorem endCurrentSession_todaysDocuments (st : SessionState) :
    (endCurrentSession st).todaysDocuments = st.todaysDocuments := by
  cases hc : st.current with
  | none => simp [endCurrentSession, hc]
  | some pi => obtain ⟨p, i⟩ := pi; simp [endCurrentSession, hc]

theorem endCurrentSession_keys (st : SessionState) :
    ((endCurrentSession st).projectSessions.map fun e => e.1)
      = st.projectSessions.map fun e => e.1 := by
  cases hc : st.current with
  | none => simp [endCurrentSession, hc]
  | some pi =>
    obtain ⟨p, i⟩ := pi
    simp [endCurrentSession, hc, keys_updateSessionAt]

theorem countActive_endCurrentSession (st : SessionState) (hInv : Inv st) :
    countActive (endCurrentSession st).projectSessions = 0 := by
  obtain ⟨hnd, hok⟩ := hInv
  cases hc : st.current with
  | none =>
    simp only [currentOk, hc] at hok
    simpa [endCurrentSession, hc] using hok
  | some pi =>
    obtain ⟨p, i⟩ := pi
    simp only [currentOk, hc] at hok
    obtain ⟨hcount, s, hs, hact⟩ := hok
    have := countActive_updateSessionAt (setActive false) hs
    simp only [endCurrentSession, hc]
    simp only [hact, setActive_isActive, if_true, if_false, Bool.false_eq_true] at this
    omega

theorem endCurrentSession_inv (st : SessionState) (hInv : Inv st) :
    Inv (endCurrentSession st) := by
  refine ⟨?_, ?_⟩
  · rw [endCurrentSession_keys]
    exact hInv.1
  · have hz := countActive_endCurrentSession st hInv
    simp only [currentOk, endCurrentSession_current]
    exact hz

theorem getSessionAt_endCurrentSession (st : SessionState) (p : String) (i : Nat) :
    getSessionAt (endCurrentSession st).projectSessions p i
        = getSessionAt st.projectSessions p i ∨
      ∃ s, getSessionAt st.projectSessions p i = some s ∧
        getSessionAt (endCurrentSession st).projectSessions p i = some (setActive false s) := by
  cases hc : st.current with
  | none => exact Or.inl (by simp [endCurrentSession, hc])
  | some pi =>
    obtain ⟨cp, ci⟩ := pi
    simp only [endCurrentSession, hc]
    by_cases hp : p = cp
    · subst hp
      by_cases hi : i = ci
      · subst hi
        rw [getSessionAt_updateSessionAt_self]
        cases hg : getSessionAt st.projectSessions p i with
        | none => exact Or.inl (by simp)
        | some s => exact Or.inr ⟨s, rfl, by simp⟩
      · exact Or.inl (getSessionAt_updateSessionAt_ne _ _ (Or.inr hi))
    · exact Or.inl (getSessionAt_updateSessionAt_ne _ _ (Or.inl hp))

theorem startSession_props (st : SessionState) (hInv : Inv st)
    (now username random projectName objective template : String) :
    Inv (startSession st now username random projectName objective template).1 ∧
    countActive
        (startSession st now username random projectName objective template).1.projectSessions
      = 1 ∧
    getCurrentSession (startSession st now username random projectName objective template).1
      = some (startSession st now username random projectName objective template).2 ∧
    (startSession st now username random projectName objective template).2.isActive = true := by
  have hz := countActive_endCurrentSession st hInv
  have hInv1 := endCurrentSession_inv st hInv
  have hcount : countActive
      (startSession st now username random projectName objective template).1.projectSessions
      = 1 := by
    simp only [startSession]
    rw [countActive_mapSet_append]
    simp [hz]
  have hptr : getCurrentSession
      (startSession st now username random projectName objective template).1
      = some (startSession st now username random projectName objective template).2 := by
    simp only [startSession, getCurrentSession, getSessionAt]
    rw [mapGet_mapSet_self]
    simp only [List.length_append, List.length_cons, List.length_nil, Nat.add_sub_cancel]
    rw [List.getElem?_concat_length]
  refine ⟨⟨?_, ?_⟩, hcount, hptr, rfl⟩
  · simp only [startSession]
    exact nodup_keys_mapSet _ _ hInv1.1
  · simp only [currentOk]
    simp only [startSession] at hcount hptr ⊢
    refine ⟨hcount, ?_⟩
    simp only [getCurrentSession, getSessionAt] at hptr
    cases hm : mapGet
        (mapSet (endCurrentSession st).projectSessions projectName
          ((mapGet (endCurrentSession st).projectSessions projectName).getD [] ++
            [{ id := generateSessionId now random, projectName := projectName,
               documentId := (mapGet st.todaysDocuments projectName).getD "",
               documentName := generateDocumentName now username projectName,
               startTime := now, objective := objective, template := template,
               previousSessionId :=
                 (lastElem ((mapGet st.projectSessions projectName).getD [])).map (fun s => s.id),
               isActive := true }]))
        projectName with
    | none => simp [getSessionAt, hm] at hptr
    | some l =>
      simp only [getSessionAt, hm] at hptr ⊢
      exact ⟨_, hptr, rfl⟩

theorem continueBranch_sameDay (st : SessionState) (now : String) {p : String}
    {sessions : List Session} {last : Session} (hp : (p == "") = false)
    (hm : mapGet st.projectSessions p = some sessions) (hl : lastElem sessions = some last)
    (hday : (isoDatePart last.startTime == isoDatePart now) = true) :
    continueSession st now (some p) =
      ({ endCurrentSession st with
          projectSessions :=
            updateSessionAt (endCurrentSession st).projectSessions p (sessions.length - 1)
              (setActive true)
          current := some (p, sessions.length - 1) },
       some (setActive true last)) := by
  simp only [continueSession, continueProjectBranch, hp, Bool.false_eq_true, if_false, hm, hl,
    hday, if_true, setActive]

theorem continueBranch_diffDay (st : SessionState) (now : String) {p : String}
    {sessions : List Session} {last : Session} (hp : (p == "") = false)
    (hm : mapGet st.projectSessions p = some sessions) (hl : lastElem sessions = some last)
    (hday : (isoDatePart last.startTime == isoDatePart now) = false) :
    continueSession st now (some p) = (st, none) := by
  simp only [continueSession, continueProjectBranch, hp, Bool.false_eq_true, if_false, hm, hl,
    hday]

theorem continueBranch_none_of_empty (st : SessionState) (now : String) {p : String}
    (hm : mapGet st.projectSessions p = none ∨ mapGet st.projectSessions p = some []) :
    continueProjectBranch st now (some p) = none := by
  rcases hm with hm | hm
  · by_cases hp : (p == "") = true
    · simp [continueProjectBranch, hp]
    · simp only [continueProjectBranch, hm]
      simp
  · by_cases hp : (p == "") = true
    · simp [continueProjectBranch, hp]
    · simp only [continueProjectBranch, hm]
      simp [lastElem]

theorem continue_fallThrough_sameDay (st : SessionState) (now : String) (pn : Option String)
    (hb : continueProjectBranch st now pn = none) {cp : String} {ci : Nat} {s : Session}
    (hc : st.current = some (cp, ci)) (hs : getSessionAt st.projectSessions cp ci = some s)
    (hday : (isoDatePart s.startTime == isoDatePart now) = true) :
    continueSession st now pn = (st, some s) := by
  simp only [continueSession, hb, hc, hs, hday, if_true]

theorem continue_fallThrough_diffDay (st : SessionState) (now : String) (pn : Option String)
    (hb : continueProjectBranch st now pn = none) {cp : String} {ci : Nat} {s : Session}
    (hc : st.current = some (cp, ci)) (hs : getSessionAt st.projectSessions cp ci = some s)
    (hday : (isoDatePart s.startTime == isoDatePart now) = false) :
    continueSession st now pn = (endCurrentSession st, none) := by
  simp only [continueSession, hb, hc, hs, hday, Bool.false_eq_true, if_false]

theorem continueProjectBranch_inv (st : SessionState) (hInv : Inv st) (now : String)
    (pn : Option String) :
    ∀ res, continueProjectBranch st now pn = some res → Inv res.1 := by
  intro res h
  cases pn with
  | none => simp [continueProjectBranch] at h
  | some p =>
    cases hp : p == "" with
    | true => simp [continueProjectBranch, hp] at h
    | false =>
      rcases hm : mapGet st.projectSessions p with _ | sessions
      · simp [continueProjectBranch, hp, hm] at h
      · rcases hl : lastElem sessions with _ | last
        · simp [continueProjectBranch, hp, hm, hl] at h
        · cases hday : isoDatePart last.startTime == isoDatePart now with
          | false =>
            simp only [continueProjectBranch, hp, Bool.false_eq_true, if_false, hm, hl, hday] at h
            obtain rfl : res = (st, none) := by
              injection h with h2
              exact h2.symm
            exact hInv
          | true =>
            simp only [continueProjectBranch, hp, Bool.false_eq_true, if_false, hm, hl, hday,
              if_true] at h
            obtain rfl : res =
                ({ endCurrentSession st with
                    projectSessions :=
                      updateSessionAt (endCurrentSession st).projectSessions p
                        (sessions.length - 1) (setActive true)
                    current := some (p, sessions.length - 1) },
                 some (setActive true last)) := by
              injection h with h2
              exact h2.symm
            have hz := countActive_endCurrentSession st hInv
            have hInv1 := endCurrentSession_inv st hInv
            have hlast : getSessionAt st.projectSessions p (sessions.length - 1) = some last := by
              unfold getSessionAt
              rw [hm]
              exact hl
            obtain ⟨s0, hs0, hs0form⟩ :
                ∃ s0, getSessionAt (endCurrentSession st).projectSessions p (sessions.length - 1)
                    = some s0 ∧ (s0 = last ∨ s0 = setActive false last) := by
              rcases getSessionAt_endCurrentSession st p (sessions.length - 1) with heq | ⟨t, ht, ht2⟩
              · exact ⟨last, heq.trans hlast, Or.inl rfl⟩
              · rw [hlast] at ht
                cases ht
                exact ⟨setActive false last, ht2, Or.inr rfl⟩
            have hs0inactive : s0.isActive = false := inactive_of_countActive_zero hz hs0
            refine ⟨?_, ?_⟩
            · simp only
              rw [keys_updateSessionAt, endCurrentSession_keys]
              exact hInv.1
            · simp only [currentOk]
              constructor
              · have := countActive_updateSessionAt (setActive true) hs0
                simp only [hs0inactive, setActive_isActive, Bool.false_eq_true, if_false,
                  if_true] at this
                omega
              · refine ⟨setActive true s0, ?_, rfl⟩
                show getSessionAt
                    (updateSessionAt (endCurrentSession st).projectSessions p
                      (sessions.length - 1) (setActive true)) p (sessions.length - 1)
                  = some (setActive true s0)
                rw [getSessionAt_updateSessionAt_self, hs0]
                rfl

theorem continueSession_inv (st : SessionState) (hInv : Inv st) (now : String)
    (pn : Option String) : Inv (continueSession st now pn).1 := by
  rcases hb : continueProjectBranch st now pn with _ | res
  · rcases hc : st.current with _ | ⟨cp, ci⟩
    · simpa [continueSession, hb, hc] using hInv
    · rcases hs : getSessionAt st.projectSessions cp ci with _ | s
      · simpa [continueSession, hb, hc, hs] using hInv
      · cases hday : isoDatePart s.startTime == isoDatePart now with
        | true =>
          rw [continue_fallThrough_sameDay st now pn hb hc hs hday]
          exact hInv
        | false =>
          rw [continue_fallThrough_diffDay st now pn hb hc hs hday]
          exact endCurrentSession_inv st hInv
  · have h2 := continueProjectBranch_inv st hInv now pn res hb
    simp only [continueSession, hb]
    exact h2

theorem setDocIdInList_isActive (l : List Session) (a b : String) :
    (setDocIdInList l a b).map (fun s => s.isActive) = l.map fun s => s.isActive := by
  induction l with
  | nil => rfl
  | cons s rest ih =>
    cases hs : s.id == a with
    | true => simp [setDocIdInList, hs]
    | false => simp [setDocIdInList, hs, ih]

theorem setDocIdInList_id (l : List Session) (a b : String) :
    (setDocIdInList l a b).map (fun s => s.id) = l.map fun s => s.id := by
  induction l with
  | nil => rfl
  | cons s rest ih =>
    cases hs : s.id == a with
    | true => simp [setDocIdInList, hs]
    | false => simp [setDocIdInList, hs, ih]

theorem countActiveList_setDocIdInList (l : List Session) (a b : String) :
    countActiveList (setDocIdInList l a b) = countActiveList l := by
  induction l with
  | nil => rfl
  | cons s rest ih =>
    cases hs : s.id == a with
    | true => simp [setDocIdInList, hs, countActiveList, List.countP_cons]
    | false =>
      simp only [setDocIdInList, hs, Bool.false_eq_true, if_false, countActiveList,
        List.countP_cons]
      simp only [countActiveList] at ih
      omega

theorem setDocumentIdAux_keys (ps : List (String × List Session)) (a b : String) :
    ((setDocumentIdAux ps a b).1.map fun e => e.1) = ps.map fun e => e.1 := by
  induction ps with
  | nil => rfl
  | cons e rest ih =>
    obtain ⟨k, l⟩ := e
    cases hl : l.any fun s => s.id == a with
    | true => simp [setDocumentIdAux, hl]
    | false => simp [setDocumentIdAux, hl, ih]

theorem countActive_setDocumentIdAux (ps : List (String × List Session)) (a b : String) :
    countActive (setDocumentIdAux ps a b).1 = countActive ps := by
  induction ps with
  | nil => rfl
  | cons e rest ih =>
    obtain ⟨k, l⟩ := e
    cases hl : l.any fun s => s.id == a with
    | true =>
      simp [setDocumentIdAux, hl, countActive, countActiveList_setDocIdInList]
    | false =>
      simp only [setDocumentIdAux, hl, Bool.false_eq_true, if_false, countActive, List.map_cons,
        List.sum_cons]
      simp only [countActive] at ih
      omega

theorem mapGet_setDocumentIdAux (ps : List (String × List Session)) (a b p : String) :
    mapGet (setDocumentIdAux ps a b).1 p = mapGet ps p ∨
      ∃ l, mapGet ps p = some l ∧ mapGet (setDocumentIdAux ps a b).1 p = some (setDocIdInList l a b) := by
  induction ps with
  | nil => exact Or.inl rfl
  | cons e rest ih =>
    obtain ⟨k, l⟩ := e
    cases hl : l.any fun s => s.id == a with
    | true =>
      cases hk : k == p with
      | true =>
        exact Or.inr ⟨l, by simp [mapGet, hk], by simp [setDocumentIdAux, hl, mapGet, hk]⟩
      | false =>
        exact Or.inl (by simp [setDocumentIdAux, hl, mapGet, hk])
    | false =>
      cases hk : k == p with
      | true =>
        exact Or.inl (by simp [setDocumentIdAux, hl, mapGet, hk])
      | false =>
        rcases ih with h | ⟨l2, h1, h2⟩
        · exact Or.inl (by simp [setDocumentIdAux, hl, mapGet, hk, h])
        · exact Or.inr ⟨l2, by simp [mapGet, hk, h1], by simp [setDocumentIdAux, hl, mapGet, hk, h2]⟩

theorem getSessionAt_setDocumentIdAux_isActive (ps : List (String × List Session))
    (a b p : String) (i : Nat) :
    (getSessionAt (setDocumentIdAux ps a b).1 p i).map (fun s => s.isActive)
      = (getSessionAt ps p i).map fun s => s.isActive := by
  rcases mapGet_setDocumentIdAux ps a b p with h | ⟨l, h1, h2⟩
  · unfold getSessionAt
    rw [h]
  · unfold getSessionAt
    rw [h1, h2]
    have hmap := setDocIdInList_isActive l a b
    have := congrArg (fun t => t[i]?) hmap
    simp only [List.getElem?_map] at this
    exact this

theorem setDocumentId_current (st : SessionState) (a b : String) :
    (setDocumentId st a b).current = st.current := by
  cases hr : (setDocumentIdAux st.projectSessions a b).2 with
  | none => simp [setDocumentId, hr]
  | some p => simp [setDocumentId, hr]

theorem setDocumentId_projectSessions (st : SessionState) (a b : String) :
    (setDocumentId st a b).projectSessions = (setDocumentIdAux st.projectSessions a b).1 := by
  cases hr : (setDocumentIdAux st.projectSessions a b).2 with
  | none => simp [setDocumentId, hr]
  | some p => simp [setDocumentId, hr]

theorem setDocumentId_inv (st : SessionState) (hInv : Inv st) (a b : String) :
    Inv (setDocumentId st a b) := by
  obtain ⟨hnd, hok⟩ := hInv
  refine ⟨?_, ?_⟩
  · rw [setDocumentId_projectSessions, setDocumentIdAux_keys]
    exact hnd
  · simp only [currentOk, setDocumentId_current]
    cases hc : st.current with
    | none =>
      simp only [currentOk, hc] at hok
      rw [setDocumentId_projectSessions, countActive_setDocumentIdAux]
      exact hok
    | some pi =>
      obtain ⟨p, i⟩ := pi
      simp only [currentOk, hc] at hok
      obtain ⟨hcount, s, hs, hact⟩ := hok
      rw [setDocumentId_projectSessions]
      refine ⟨by rw [countActive_setDocumentIdAux]; exact hcount, ?_⟩
      have hproj := getSessionAt_setDocumentIdAux_isActive st.projectSessions a b p i
      rw [hs] at hproj
      simp only [Option.map_some'] at hproj
      rcases Option.map_eq_some'.mp hproj with ⟨t, ht1, ht2⟩
      exact ⟨t, ht1, by rw [ht2, hact]⟩

theorem endSession_inv (st : SessionState) (hInv : Inv st) : Inv (endSession st).1 := by
  unfold endSession
  cases getCurrentSession st with
  | none => exact hInv
  | some s => exact endCurrentSession_inv st hInv

theorem initialState_inv : Inv initialState := by
  refine ⟨by simp [initialState], ?_⟩
  simp [currentOk, initialState, countActive]

theorem reachable_inv {st : SessionState} (h : Reachable st) : Inv st := by
  induction h with
  | init => exact initialState_inv
  | start st now username random projectName objective template _ ih =>
    exact (startSession_props st ih now username random projectName objective template).1
  | cont st now projectName _ ih => exact continueSession_inv st ih now projectName
  | endCur st _ ih => exact endCurrentSession_inv st ih
  | endSvc st _ ih => exact endSession_inv st ih
  | setDoc st sessionId documentId _ ih => exact setDocumentId_inv st ih sessionId documentId

theorem setDocIdInList_idem (l : List Session) (a b : String) :
    setDocIdInList (setDocIdInList l a b) a b = setDocIdInList l a b := by
  induction l with
  | nil => rfl
  | cons s rest ih =>
    cases hs : s.id == a with
    | true => simp [setDocIdInList, hs]
    | false => simp [setDocIdInList, hs, ih]

theorem any_setDocIdInList (l : List Session) (a b x : String) :
    ((setDocIdInList l a b).any fun s => s.id == x) = l.any fun s => s.id == x := by
  induction l with
  | nil => rfl
  | cons s rest ih =>
    cases hs : s.id == a with
    | true => simp [setDocIdInList, hs]
    | false => simp [setDocIdInList, hs, ih]

theorem setDocumentIdAux_idem (ps : List (String × List Session)) (a b : String) :
    setDocumentIdAux (setDocumentIdAux ps a b).1 a b = setDocumentIdAux ps a b := by
  induction ps with
  | nil => rfl
  | cons e rest ih =>
    obtain ⟨k, l⟩ := e
    cases hl : l.any fun s => s.id == a with
    | true =>
      have hl2 : ((setDocIdInList l a b).any fun s => s.id == a) = true := by
        rw [any_setDocIdInList]
        exact hl
      simp [setDocumentIdAux, hl, hl2, setDocIdInList_idem]
    | false =>
      simp [setDocumentIdAux, hl, ih]

theorem mapSet_idem {α : Type} (m : List (String × α)) (k : String) (v : α) :
    mapSet (mapSet m k v) k v = mapSet m k v := by
  induction m with
  | nil => simp [mapSet]
  | cons e rest ih =>
    obtain ⟨k', v'⟩ := e
    cases hk : k' == k with
    | true => simp [mapSet, hk]
    | false => simp [mapSet, hk, ih]

theorem setDocumentId_idem (st : SessionState) (a b : String) :
    setDocumentId (setDocumentId st a b) a b = setDocumentId st a b := by
  have hidem := setDocumentIdAux_idem st.projectSessions a b
  cases hr : (setDocumentIdAux st.projectSessions a b).2 with
  | none =>
    have h1 : setDocumentId st a b
        = ⟨st.current, (setDocumentIdAux st.projectSessions a b).1, st.todaysDocuments⟩ := by
      simp [setDocumentId, hr]
    rw [h1]
    simp [setDocumentId, hidem, hr]
  | some p =>
    have h1 : setDocumentId st a b
        = ⟨st.current, (setDocumentIdAux st.projectSessions a b).1,
            mapSet st.todaysDocuments p b⟩ := by
      simp [setDocumentId, hr]
    rw [h1]
    simp [setDocumentId, hidem, hr, mapSet_idem]

theorem modifyIdx_map_id (l : List Session) (i : Nat) (b : Bool) :
    (modifyIdx l i (setActive b)).map (fun s => s.id) = l.map fun s => s.id := by
  induction l generalizing i with
  | nil => rfl
  | cons s rest ih =>
    cases i with
    | zero => simp [modifyIdx, setActive_id]
    | succ j => simp [modifyIdx, ih]

theorem sessionIds_updateSessionAt_setActive (ps : List (String × List Session)) (p : String)
    (i : Nat) (b : Bool) :
    sessionIds (updateSessionAt ps p i (setActive b)) = sessionIds ps := by
  induction ps with
  | nil => rfl
  | cons e rest ih =>
    obtain ⟨k, l⟩ := e
    cases hk : k == p with
    | true => simp [updateSessionAt, hk, sessionIds, modifyIdx_map_id]
    | false =>
      simp only [updateSessionAt, hk, Bool.false_eq_true, if_false, sessionIds, List.map_cons]
      simp only [sessionIds] at ih
      rw [ih]

theorem sessionIds_endCurrentSession (st : SessionState) :
    sessionIds (endCurrentSession st).projectSessions = sessionIds st.projectSessions := by
  cases hc : st.current with
  | none => simp [endCurrentSession, hc]
  | some pi =>
    obtain ⟨p, i⟩ := pi
    simp [endCurrentSession, hc, sessionIds_updateSessionAt_setActive]

/-! ## The claims -/

/-- C1: at most one session is active at any time.  For every reachable
registry state, after `start(A)` followed by `start(B)` (any projects,
any environment inputs) exactly one session is active across all
project histories, it is the session returned by the second `start`,
and it is the current session — so starting always deactivated the
previously active session first. -/
theorem claim1_start_deactivates_previous (st : SessionState) (h : Reachable st)
    (nowA uA rA A oA tA nowB uB rB B oB tB : String) :
    countActive
        ((startSession (startSession st nowA uA rA A oA tA).1 nowB uB rB B oB tB).1).projectSessions
      = 1 ∧
    getCurrentSession (startSession (startSession st nowA uA rA A oA tA).1 nowB uB rB B oB tB).1
      = some (startSession (startSession st nowA uA rA A oA tA).1 nowB uB rB B oB tB).2 ∧
    ((startSession (startSession st nowA uA rA A oA tA).1 nowB uB rB B oB tB).2).isActive
      = true := by
  have h1 := startSession_props st (reachable_inv h) nowA uA rA A oA tA
  have h2 := startSession_props _ h1.1 nowB uB rB B oB tB
  exact ⟨h2.2.1, h2.2.2.1, h2.2.2.2⟩

theorem claim1_witness :
    countActive
        ((startSession
            (startSession initialState "2025-01-15T10:00:00.000Z" "dev" "r1" "alpha" "o1"
              "project_log").1
            "2025-01-15T11:00:00.000Z" "dev" "r2" "beta" "o2" "project_log").1).projectSessions
      = 1 ∧
    getCurrentSession
        (startSession
          (startSession initialState "2025-01-15T10:00:00.000Z" "dev" "r1" "alpha" "o1"
            "project_log").1
          "2025-01-15T11:00:00.000Z" "dev" "r2" "beta" "o2" "project_log").1
      = some
          (startSession
            (startSession initialState "2025-01-15T10:00:00.000Z" "dev" "r1" "alpha" "o1"
              "project_log").1
            "2025-01-15T11:00:00.000Z" "dev" "r2" "beta" "o2" "project_log").2 ∧
    ((startSession
        (startSession initialState "2025-01-15T10:00:00.000Z" "dev" "r1" "alpha" "o1"
          "project_log").1
        "2025-01-15T11:00:00.000Z" "dev" "r2" "beta" "o2" "project_log").2).isActive = true :=
  claim1_start_deactivates_previous initialState Reachable.init
    "2025-01-15T10:00:00.000Z" "dev" "r1" "alpha" "o1" "project_log"
    "2025-01-15T11:00:00.000Z" "dev" "r2" "beta" "o2" "project_log"

/-- C2: `isExpired(tokenSet)` is true exactly when the expiry field is
absent or the current instant is at or past the expiry; the boundary
`now = expiry` counts as expired, and a token without expiry is always
expired.  (`Date.now()` is a non-negative epoch-millisecond count, so
`now : Nat`; the JavaScript-falsy expiry `0` also satisfies both
sides.) -/
theorem claim2_isExpired_iff (now : Nat) (t : TokenData) :
    isTokenExpired now t = true ↔
      (t.expiry_date = none ∨ ∃ e, t.expiry_date = some e ∧ e ≤ now) := by
  cases he : t.expiry_date with
  | none => simp [isTokenExpired, he]
  | some e =>
    by_cases h0 : e = 0
    · subst h0
      simp [isTokenExpired, he]
    · simp only [isTokenExpired, he, beq_iff_eq, h0, if_false, decide_eq_true_eq, ge_iff_le]
      constructor
      · intro hle
        exact Or.inr ⟨e, rfl, hle⟩
      · rintro (h | ⟨e2, he2, hle⟩)
        · exact absurd h (by simp)
        · cases Option.some.inj he2
          exact hle

/-- C3: evaluation of the code at the failing input.  A document
mapping recorded for project `alpha` by a session started on
2025-01-15 is still returned by `getTodaysDocumentId` afterwards —
the function (see its definition) consults no clock and the
`todaysDocuments` map is never invalidated, so the very same value
`some "doc-1"` is returned when the query happens on 2025-01-16,
where the claim requires "absent". -/
theorem claim3_stale_mapping_persists :
    getTodaysDocumentId
        (setDocumentId
          (startSession initialState "2025-01-15T10:00:00.000Z" "dev" "r1" "alpha" "objective"
            "project_log").1
          (startSession initialState "2025-01-15T10:00:00.000Z" "dev" "r1" "alpha" "objective"
            "project_log").2.id
          "doc-1")
        "alpha" = some "doc-1" ∧
    needsNewDocument
        (setDocumentId
          (startSession initialState "2025-01-15T10:00:00.000Z" "dev" "r1" "alpha" "objective"
            "project_log").1
          (startSession initialState "2025-01-15T10:00:00.000Z" "dev" "r1" "alpha" "objective"
            "project_log").2.id
          "doc-1")
        "alpha" = false ∧
    isoDatePart
        (startSession initialState "2025-01-15T10:00:00.000Z" "dev" "r1" "alpha" "objective"
          "project_log").2.startTime = "2025-01-15" := by
  refine ⟨by decide, by decide, by decide⟩

/-- C4: `continue(project)` with a non-empty project that has history
returns the project's most recent session reactivated as the current
session when its recorded day equals the current day, and returns
`none` when the days differ; with the project omitted the same check
applies to the current session, and a stale current session is cleared
(deactivated and dereferenced) as a side effect. -/
theorem claim4_continue_day_boundary (st : SessionState) (now : String) :
    (∀ p sessions last, (p == "") = false →
      mapGet st.projectSessions p = some sessions →
      lastElem sessions = some last →
      ((isoDatePart last.startTime == isoDatePart now) = true →
        (continueSession st now (some p)).2 = some (setActive true last) ∧
        getCurrentSession (continueSession st now (some p)).1 = some (setActive true last)) ∧
      ((isoDatePart last.startTime == isoDatePart now) = false →
        continueSession st now (some p) = (st, none))) ∧
    (∀ cp ci s, st.current = some (cp, ci) →
      getSessionAt st.projectSessions cp ci = some s →
      ((isoDatePart s.startTime == isoDatePart now) = true →
        continueSession st now none = (st, some s)) ∧
      ((isoDatePart s.startTime == isoDatePart now) = false →
        continueSession st now none = (endCurrentSession st, none) ∧
        getCurrentSession (endCurrentSession st) = none)) := by
  constructor
  · intro p sessions last hp hm hl
    constructor
    · intro hday
      have heq := continueBranch_sameDay st now hp hm hl hday
      refine ⟨by rw [heq], ?_⟩
      rw [heq]
      have hlast : getSessionAt st.projectSessions p (sessions.length - 1) = some last := by
        unfold getSessionAt
        rw [hm]
        exact hl
      obtain ⟨s0, hs0, hs0form⟩ :
          ∃ s0, getSessionAt (endCurrentSession st).projectSessions p (sessions.length - 1)
              = some s0 ∧ (s0 = last ∨ s0 = setActive false last) := by
        rcases getSessionAt_endCurrentSession st p (sessions.length - 1) with heq2 | ⟨t, ht, ht2⟩
        · exact ⟨last, heq2.trans hlast, Or.inl rfl⟩
        · rw [hlast] at ht
          cases ht
          exact ⟨setActive false last, ht2, Or.inr rfl⟩
      show getCurrentSession
          { endCurrentSession st with
              projectSessions :=
                updateSessionAt (endCurrentSession st).projectSessions p (sessions.length - 1)
                  (setActive true)
              current := some (p, sessions.length - 1) }
        = some (setActive true last)
      simp only [getCurrentSession]
      rw [getSessionAt_updateSessionAt_self, hs0]
      rcases hs0form with rfl | rfl
      · rfl
      · rw [Option.map_some', setActive_setActive]
    · intro hday
      exact continueBranch_diffDay st now hp hm hl hday
  · intro cp ci s hc hs
    have hb : continueProjectBranch st now none = none := rfl
    constructor
    · intro hday
      exact continue_fallThrough_sameDay st now none hb hc hs hday
    · intro hday
      refine ⟨continue_fallThrough_diffDay st now none hb hc hs hday, ?_⟩
      simp [getCurrentSession, endCurrentSession_current]

theorem claim4_witness :
    (continueSession
        (startSession initialState "2025-01-15T10:00:00.000Z" "dev" "r1" "alpha" "o1"
          "project_log").1
        "2025-01-15T23:59:00.000Z" (some "alpha")).2
      = some (setActive true
          (startSession initialState "2025-01-15T10:00:00.000Z" "dev" "r1" "alpha" "o1"
            "project_log").2) ∧
    continueSession
        (startSession initialState "2025-01-15T10:00:00.000Z" "dev" "r1" "alpha" "o1"
          "project_log").1
        "2025-01-16T00:01:00.000Z" (some "alpha")
      = ((startSession initialState "2025-01-15T10:00:00.000Z" "dev" "r1" "alpha" "o1"
          "project_log").1, none) :=
  ⟨(((claim4_continue_day_boundary
        (startSession initialState "2025-01-15T10:00:00.000Z" "dev" "r1" "alpha" "o1"
          "project_log").1
        "2025-01-15T23:59:00.000Z").1
      "alpha"
      [(startSession initialState "2025-01-15T10:00:00.000Z" "dev" "r1" "alpha" "o1"
          "project_log").2]
      (startSession initialState "2025-01-15T10:00:00.000Z" "dev" "r1" "alpha" "o1"
          "project_log").2
      (by decide) (by decide) (by decide)).1 (by decide)).1,
   ((claim4_continue_day_boundary
        (startSession initialState "2025-01-15T10:00:00.000Z" "dev" "r1" "alpha" "o1"
          "project_log").1
        "2025-01-16T00:01:00.000Z").1
      "alpha"
      [(startSession initialState "2025-01-15T10:00:00.000Z" "dev" "r1" "alpha" "o1"
          "project_log").2]
      (startSession initialState "2025-01-15T10:00:00.000Z" "dev" "r1" "alpha" "o1"
          "project_log").2
      (by decide) (by decide) (by decide)).2 (by decide)⟩

/-- C5: `end()` with no active session fails with the no-active-session
error and leaves the whole state untouched; with an active session it
returns that session deactivated, clears the current reference, and
leaves every project history (its keys and session ids) in place. -/
theorem claim5_end_requires_active (st : SessionState) :
    (getCurrentSession st = none →
      endSession st = (st, Except.error "No active session to end")) ∧
    (∀ p i s, st.current = some (p, i) →
      getSessionAt st.projectSessions p i = some s →
      (endSession st).2 = Except.ok (setActive false s) ∧
      (endSession st).1.current = none ∧
      sessionIds (endSession st).1.projectSessions = sessionIds st.projectSessions ∧
      getSessionAt (endSession st).1.projectSessions p i = some (setActive false s)) := by
  constructor
  · intro h
    simp [endSession, h]
  · intro p i s hc hs
    have hg : getCurrentSession st = some s := by
      simp [getCurrentSession, hc, hs]
    have he : endSession st = (endCurrentSession st, Except.ok (setActive false s)) := by
      simp [endSession, hg]
    refine ⟨by rw [he], by rw [he]; exact endCurrentSession_current st,
      by rw [he]; exact sessionIds_endCurrentSession st, ?_⟩
    rw [he]
    show getSessionAt (endCurrentSession st).projectSessions p i = some (setActive false s)
    simp only [endCurrentSession, hc]
    rw [getSessionAt_updateSessionAt_self, hs]
    rfl

theorem claim5_witness :
    endSession initialState = (initialState, Except.error "No active session to end") ∧
    (endSession
        (startSession initialState "2025-01-15T10:00:00.000Z" "dev" "r1" "alpha" "o1"
          "project_log").1).2
      = Except.ok (setActive false
          (startSession initialState "2025-01-15T10:00:00.000Z" "dev" "r1" "alpha" "o1"
            "project_log").2) :=
  ⟨(claim5_end_requires_active initialState).1 (by decide),
   by
    have h := (claim5_end_requires_active
        (startSession initialState "2025-01-15T10:00:00.000Z" "dev" "r1" "alpha" "o1"
          "project_log").1).2
      "alpha" 0
      (startSession initialState "2025-01-15T10:00:00.000Z" "dev" "r1" "alpha" "o1"
          "project_log").2
      (by decide) (by decide)
    exact h.1⟩

/-- C6: with an initialized client but no access token (the state after
an absent token file), `isAuthenticated()` is false and
`getAuthenticatedClient` fails with the not-authenticated error,
leaves the state unchanged, and attempts no refresh network call
(whatever the remote would have answered). -/
theorem claim6_no_token_no_network (st : AuthState) (now : Nat) (remote : RefreshOutcome)
    (hinit : st.initialized = true)
    (htok : st.clientCredentials.access_token = none) :
    isAuthenticated st now = false ∧
    getAuthenticatedClient st now remote
      = (st, Except.error "No access token available. Authentication required.", false) := by
  constructor
  · simp [isAuthenticated, hinit, htok]
  · simp [getAuthenticatedClient, hinit, htok]

theorem claim6_witness :
    isAuthenticated ⟨true, emptyTokens, none⟩ 1700000000000 = false ∧
    getAuthenticatedClient ⟨true, emptyTokens, none⟩ 1700000000000 RefreshOutcome.failure
      = (⟨true, emptyTokens, none⟩,
         Except.error "No access token available. Authentication required.", false) :=
  claim6_no_token_no_network ⟨true, emptyTokens, none⟩ 1700000000000 RefreshOutcome.failure
    rfl rfl

/-- C7: refresh is atomic with respect to failure.  Whenever
`refreshTokens` fails (uninitialized client, missing refresh token or
remote rejection, or invalid token payload), the in-memory credentials
and the persisted token file are exactly as before the call; on
success the new, validated token set is installed in memory and
persisted before the call returns. -/
theorem claim7_refresh_atomic (st : AuthState) (remote : RefreshOutcome) :
    (∀ e, (refreshTokens st remote).2 = Except.error e → (refreshTokens st remote).1 = st) ∧
    ((refreshTokens st remote).2 = Except.ok () →
      ∃ creds, remote = RefreshOutcome.success creds ∧ tokenDataValid creds = true ∧
        (refreshTokens st remote).1.clientCredentials = creds ∧
        (refreshTokens st remote).1.tokenFile = some creds) := by
  cases hin : st.initialized with
  | false =>
    constructor
    · intro e he
      simp [refreshTokens, hin]
    · intro hok
      simp [refreshTokens, hin] at hok
  | true =>
    cases remote with
    | failure =>
      constructor
      · intro e he
        simp [refreshTokens, hin]
      · intro hok
        simp [refreshTokens, hin] at hok
    | success creds =>
      cases hv : tokenDataValid creds with
      | false =>
        constructor
        · intro e he
          simp [refreshTokens, hin, hv]
        · intro hok
          simp [refreshTokens, hin, hv] at hok
      | true =>
        constructor
        · intro e he
          simp [refreshTokens, saveTokens, hin, hv] at he
        · intro _
          exact ⟨creds, rfl, hv, by simp [refreshTokens, saveTokens, hin, hv],
            by simp [refreshTokens, saveTokens, hin, hv]⟩

theorem claim7_witness :
    (refreshTokens ⟨true, emptyTokens, none⟩ RefreshOutcome.failure).1
      = ⟨true, emptyTokens, none⟩ ∧
    (refreshTokens ⟨true, emptyTokens, none⟩
        (RefreshOutcome.success
          ⟨some "at2", some "rt", none, none, some 1700000000000, none⟩)).1.clientCredentials
      = ⟨some "at2", some "rt", none, none, some 1700000000000, none⟩ ∧
    (refreshTokens ⟨true, emptyTokens, none⟩
        (RefreshOutcome.success
          ⟨some "at2", some "rt", none, none, some 1700000000000, none⟩)).1.tokenFile
      = some ⟨some "at2", some "rt", none, none, some 1700000000000, none⟩ := by
  refine ⟨(claim7_refresh_atomic ⟨true, emptyTokens, none⟩ RefreshOutcome.failure).1
      "Token refresh failed. Re-authentication required." rfl, ?_, ?_⟩ <;>
  · have h := (claim7_refresh_atomic ⟨true, emptyTokens, none⟩
        (RefreshOutcome.success
          ⟨some "at2", some "rt", none, none, some 1700000000000, none⟩)).2 rfl
    obtain ⟨creds, hc, hval, hmem, hfile⟩ := h
    cases hc
    first
    | exact hmem
    | exact hfile

/-- C8 counterexample: the full generated document name violates the
claim at a concrete input — with a 50-character project name (which the
sanitizer keeps whole) and the operator identity `j.smith`, the name is
77 characters long (the claim demands at most 50) and contains the
character `.` (the claim allows only `[a-z0-9-]`). -/
theorem claim8_counterexample :
    50 < (generateDocumentName "2025-01-15T10:00:00.000Z" "j.smith"
        "aaaaaaaaaaaaaaaaaaaaaaaaaaaaaaaaaaaaaaaaaaaaaaaaaa").length ∧
    ¬ (∀ c ∈ (generateDocumentName "2025-01-15T10:00:00.000Z" "j.smith"
        "aaaaaaaaaaaaaaaaaaaaaaaaaaaaaaaaaaaaaaaaaaaaaaaaaa").data, isSafeChar c = true) := by
  constructor
  · decide
  · decide

/-- C8 amended: the document name generator is a deterministic function
of its `(instant, operator, project)` arguments, equal to the
concatenation `session-` + sanitized project + `-` + date + `-` +
operator; only the sanitized project component is guaranteed to use the
`[a-z0-9-]` alphabet and to be at most 50 characters — the full name
also embeds the date and the operator identity verbatim and may exceed
50 characters. -/
theorem claim8_amended (now username projectName : String) :
    generateDocumentName now username projectName
      = "session-" ++ sanitizeProjectName projectName ++ "-" ++ isoDatePart now ++ "-"
          ++ username ∧
    (sanitizeProjectName projectName).length ≤ 50 ∧
    ∀ c ∈ (sanitizeProjectName projectName).data, isSafeChar c = true :=
  ⟨rfl, sanitizeProjectName_length projectName, sanitizeProjectName_chars projectName⟩

theorem claim8_witness :
    generateDocumentName "2025-01-15T10:00:00.000Z" "dev" "My Project"
      = "session-" ++ sanitizeProjectName "My Project" ++ "-"
          ++ isoDatePart "2025-01-15T10:00:00.000Z" ++ "-" ++ "dev" ∧
    isSafeChar 'm' = true :=
  ⟨(claim8_amended "2025-01-15T10:00:00.000Z" "dev" "My Project").1,
   (claim8_amended "2025-01-15T10:00:00.000Z" "dev" "My Project").2.2 'm' (by decide)⟩

/-- C9: `attachDocument` is idempotent — for a session id present in
some project history (and in fact for any id at all), applying
`setDocumentId` twice with the same `(sessionId, documentId)` pair
yields exactly the state of applying it once, covering both the
`todaysDocuments` index and the session itself. -/
theorem claim9_attachDocument_idempotent (st : SessionState) (sessionId documentId : String)
    (_h : sessionExists st sessionId = true) :
    setDocumentId (setDocumentId st sessionId documentId) sessionId documentId
      = setDocumentId st sessionId documentId :=
  setDocumentId_idem st sessionId documentId

theorem claim9_witness :
    setDocumentId
        (setDocumentId
          (startSession initialState "2025-01-15T10:00:00.000Z" "dev" "r1" "alpha" "o1"
            "project_log").1
          (startSession initialState "2025-01-15T10:00:00.000Z" "dev" "r1" "alpha" "o1"
            "project_log").2.id
          "doc-1")
        (startSession initialState "2025-01-15T10:00:00.000Z" "dev" "r1" "alpha" "o1"
          "project_log").2.id
        "doc-1"
      = setDocumentId
          (startSession initialState "2025-01-15T10:00:00.000Z" "dev" "r1" "alpha" "o1"
            "project_log").1
          (startSession initialState "2025-01-15T10:00:00.000Z" "dev" "r1" "alpha" "o1"
            "project_log").2.id
          "doc-1" :=
  claim9_attachDocument_idempotent
    (startSession initialState "2025-01-15T10:00:00.000Z" "dev" "r1" "alpha" "o1"
      "project_log").1
    (startSession initialState "2025-01-15T10:00:00.000Z" "dev" "r1" "alpha" "o1"
      "project_log").2.id
    "doc-1" (by decide)

/-- C10: `continue(project)` with a non-empty project that has no
history entries does not return `none` from the project branch: it
falls through to the current-session check and, when a current session
from today exists, returns that session — even when its project name
differs from the requested one. -/
theorem claim10_unknown_project_falls_through (st : SessionState) (now p : String)
    {cp : String} {ci : Nat} {s : Session}
    (hm : mapGet st.projectSessions p = none ∨ mapGet st.projectSessions p = some [])
    (hc : st.current = some (cp, ci))
    (hs : getSessionAt st.projectSessions cp ci = some s)
    (hday : (isoDatePart s.startTime == isoDatePart now) = true) :
    continueSession st now (some p) = (st, some s) :=
  continue_fallThrough_sameDay st now (some p) (continueBranch_none_of_empty st now hm) hc hs
    hday

theorem claim10_witness :
    continueSession
        (startSession initialState "2025-01-15T10:00:00.000Z" "dev" "r1" "alpha" "o1"
          "project_log").1
        "2025-01-15T23:00:00.000Z" (some "beta")
      = ((startSession initialState "2025-01-15T10:00:00.000Z" "dev" "r1" "alpha" "o1"
            "project_log").1,
         some (startSession initialState "2025-01-15T10:00:00.000Z" "dev" "r1" "alpha" "o1"
            "project_log").2) :=
  @claim10_unknown_project_falls_through
    (startSession initialState "2025-01-15T10:00:00.000Z" "dev" "r1" "alpha" "o1"
      "project_log").1
    "2025-01-15T23:00:00.000Z" "beta" "alpha" 0
    (startSession initialState "2025-01-15T10:00:00.000Z" "dev" "r1" "alpha" "o1"
      "project_log").2
    (Or.inl (by decide)) (by decide) (by decide) (by decide)

end VibeLogger
